import Mathlib

/-!
Verification of the micropython LED wave animation program.

The development shallowly embeds the program's pure computations and its
stateful sinks:

* `_adjust_brightness_rgb565` — the RGB565 brightness codec of
  `led_display.py`;
* `calculate_led_positions`, `draw_circle_fast`, `LEDDisplay.set_pwm` — the
  rendered sink of `led_display.py` (the ILI9341 display driver is modelled
  as a trace of block/clear operations);
* `LEDPhysical.set_pwm` — the PWM sink of `led_physical.py` (duty state per
  channel);
* `wave_value`, `pwm_value`, `mainTrace` — the triangular wave and the
  animation loop of `main.py`, modelled as the trace of sink calls a run of
  `N` complete frames performs before an interrupt or error terminates it.

Python floats are modelled as exact rationals; Python `int(x)` is truncation
toward zero (`pyTrunc`), Python `x % y` on floats is `pyMod`, and Python
`//` on ints is floor division, which agrees with Lean's `Int` division for
the positive divisors used here.
-/

/-- Python `int(x)` applied to a float: truncation toward zero. -/
def pyTrunc (q : ℚ) : ℤ := if 0 ≤ q then ⌊q⌋ else ⌈q⌉

/-- Python `x % y` on floats: `x - y * floor (x / y)` (sign of the divisor). -/
def pyMod (x y : ℚ) : ℚ := x - y * (⌊x / y⌋ : ℚ)

/-- Modelled from the spec: `color565` is the display driver's packing
primitive (the `ili9341` module is not part of `src/`).  Per the spec's
"Device Color" description it packs 8-bit R, G, B channels into a 16-bit
value with 5 bits of red (top), 6 bits of green (middle) and 5 bits of blue
(bottom), dropping the low bits of each 8-bit channel. -/
def color565 (r g b : ℕ) : ℕ := r / 8 * 2048 + g / 4 * 32 + b / 8

/-- `LEDDisplay._adjust_brightness_rgb565` from `led_display.py`: unpack the
5/6/5 channels, widen to 8 bits by `ch * 255 // chMax`, scale by the
brightness factor with Python `int` truncation, clamp to `[0, 255]`, and
repack with `color565`. -/
def _adjust_brightness_rgb565 (color : ℕ) (brightness : ℚ) : ℕ :=
  let r := (color >>> 11) &&& 0x1F
  let g := (color >>> 5) &&& 0x3F
  let b := color &&& 0x1F
  let r8 := r * 255 / 31
  let g8 := g * 255 / 63
  let b8 := b * 255 / 31
  let r8b := pyTrunc ((r8 : ℚ) * brightness)
  let g8b := pyTrunc ((g8 : ℚ) * brightness)
  let b8b := pyTrunc ((b8 : ℚ) * brightness)
  let r8c := min 255 (max 0 r8b)
  let g8c := min 255 (max 0 g8b)
  let b8c := min 255 (max 0 b8b)
  color565 r8c.toNat g8c.toNat b8c.toNat

/-- `MIN_PWM` from `main.py`: minimum brightness of the wave animation. -/
def MIN_PWM : ℚ := 0.05

/-- `MAX_PWM` from `main.py`: maximum brightness of the wave animation. -/
def MAX_PWM : ℚ := 1.0

/-- `WAVE_SPEED` from `main.py`: per-frame increment of the wave offset. -/
def WAVE_SPEED : ℚ := 0.05

/-- The triangular wave computed in the loop body of `main` in `main.py`:
phase offset `i / n`, sawtooth position in `[0, 2)`, rising edge for
positions up to `1`, falling edge after. -/
def wave_value (wave_offset : ℚ) (i n : ℕ) : ℚ :=
  let phase_offset : ℚ := (i : ℚ) / (n : ℚ)
  let wave_position := pyMod (wave_offset + phase_offset) 2.0
  if wave_position ≤ 1.0 then wave_position else 2.0 - wave_position

/-- The PWM intensity `main` passes to `set_pwm`: the wave value mapped
affinely into `[MIN_PWM, MAX_PWM]`. -/
def pwm_value (wave_offset : ℚ) (i n : ℕ) : ℚ :=
  MIN_PWM + wave_value wave_offset i n * (MAX_PWM - MIN_PWM)

/-- The triangular waveform policy exactly as the spec words it:
`elementPhase = index/count`; `position = (phaseOffset + elementPhase) mod
2.0`; `value = position` if `position <= 1.0` else `2.0 - position`. -/
def triangular_spec (phaseOffset : ℚ) (index count : ℕ) : ℚ :=
  let elementPhase : ℚ := (index : ℚ) / (count : ℚ)
  let position := pyMod (phaseOffset + elementPhase) 2.0
  if position ≤ 1.0 then position else 2.0 - position

/-- One observable call of the animation loop on its sink. -/
inductive Event where
  | set_pwm (i : ℕ) (v : ℚ)
  | tick
  | cleanup
deriving DecidableEq

/-- How the loop is terminated: `KeyboardInterrupt` or an unexpected
exception.  Both `except` branches of `main` only print; the trace of sink
calls is the same on both paths. -/
inductive Stop where
  | interrupt
  | error
deriving DecidableEq

def isSetPwm : Event → Bool
  | .set_pwm _ _ => true
  | _ => false

def isTick : Event → Bool
  | .tick => true
  | _ => false

def isCleanup : Event → Bool
  | .cleanup => true
  | _ => false

/-- The sink calls one iteration of the `while True` body of `main` makes,
over a sink with `n` channels: `set_pwm i (pwm_value …)` for each
`i < n`, then `update_fps_display` (tick). -/
def frameTrace (n : ℕ) (offset : ℚ) : List Event :=
  ((List.range n).map fun i => Event.set_pwm i (pwm_value offset i n))
    ++ [Event.tick]

/-- The sink calls of `N` complete frames, the wave offset advancing by
`WAVE_SPEED` between frames. -/
def runFrames (n : ℕ) : ℕ → ℚ → List Event
  | 0, _ => []
  | N + 1, offset => frameTrace n offset ++ runFrames n N (offset + WAVE_SPEED)

/-- The full trace of a run of `main` that executes `N` complete frames
starting at wave offset `0.0` and is then terminated by `s` (interrupt or
unexpected error): whichever way the `try` block is left, the `finally`
block runs `cleanup` exactly once at the end. -/
def mainTrace (n N : ℕ) (s : Stop) : List Event :=
  runFrames n N 0 ++ [Event.cleanup]

/-- One operation submitted to the ILI9341 display driver (an external
collaborator): a full-screen clear or one rectangular block transfer. -/
inductive DisplayOp where
  | clear (color : ℕ)
  | block (x0 y0 x1 y1 : ℤ) (data : List ℕ)
deriving DecidableEq

/-- The display as seen by the rendered sink: its dimensions and the trace
of driver operations submitted so far. -/
structure Display where
  width : ℤ
  height : ℤ
  ops : List DisplayOp
deriving DecidableEq

/-- The pixel-color decision of the inner loop of `_draw_circle_fast`:
`color` iff `dx*dx + dy*dy <= radius*radius`, else packed black.  `yx` is
the (row, column) pair inside the clipped bounding box. -/
def circle_pixel (x_min y_min x0 y0 radius : ℤ) (color : ℕ) (yx : ℕ × ℕ) : ℕ :=
  let actual_y := y_min + (yx.1 : ℤ)
  let dy := actual_y - y0
  let dy_squared := dy * dy
  let actual_x := x_min + (yx.2 : ℤ)
  let dx := actual_x - x0
  if dx * dx + dy_squared ≤ radius * radius then color else color565 0 0 0

/-- The two bytearray stores of `_draw_circle_fast`'s inner loop:
`pixel_data[pixel_index] = pixel_color >> 8` and
`pixel_data[pixel_index + 1] = pixel_color & 0xFF`. -/
def circle_write (buf : List ℕ) (pixel_index : ℕ) (pixel_color : ℕ) : List ℕ :=
  (buf.set pixel_index (pixel_color >>> 8)).set (pixel_index + 1)
    (pixel_color &&& 0xFF)

/-- The buffer-filling double loop of `_draw_circle_fast`: starting from a
zeroed bytearray of `width * height * 2` bytes and `pixel_index = 0`,
iterate rows then columns, writing two bytes per pixel and advancing
`pixel_index` by 2.  Returns the final `pixel_index` together with the
buffer. -/
def circle_fill (x_min y_min x0 y0 radius : ℤ) (color : ℕ) (width height : ℕ) :
    ℕ × List ℕ :=
  ((List.range height).flatMap fun y => (List.range width).map fun x => (y, x)).foldl
    (fun st yx =>
      (st.1 + 2, circle_write st.2 st.1 (circle_pixel x_min y_min x0 y0 radius color yx)))
    (0, List.replicate (width * height * 2) 0)

/-- `LEDDisplay._draw_circle_fast` from `led_display.py`: clip the square
bounding box of the circle to the display, fill one contiguous row-major
buffer of big-endian 16-bit colors, and submit it as a single `block`
transfer. -/
def draw_circle_fast (disp : Display) (x0 y0 radius : ℤ) (color : ℕ) : Display :=
  let x_min := max 0 (x0 - radius)
  let x_max := min (disp.width - 1) (x0 + radius)
  let y_min := max 0 (y0 - radius)
  let y_max := min (disp.height - 1) (y0 + radius)
  let width := x_max - x_min + 1
  let height := y_max - y_min + 1
  let pixel_data :=
    (circle_fill x_min y_min x0 y0 radius color width.toNat height.toNat).2
  { disp with
    ops := disp.ops ++ [DisplayOp.block x_min y_min x_max y_max pixel_data] }

/-- `LEDDisplay._calculate_led_positions` from `led_display.py`: evenly
spaced X centers starting at `(display_width - total_width) // 2 + radius`,
keeping only positions with `x + radius <= display_width`.  Python's `//`
on ints is floor division, which for the positive divisor `2` agrees with
`Int` division. -/
def calculate_led_positions (num_leds led_radius padding : ℕ)
    (display_width : ℤ) : List ℤ :=
  let total_width : ℤ :=
    (num_leds : ℤ) * ((led_radius : ℤ) * 2) + ((num_leds : ℤ) - 1) * (padding : ℤ)
  let start_x : ℤ := (display_width - total_width) / 2 + (led_radius : ℤ)
  (List.range num_leds).filterMap fun i =>
    let x := start_x + (i : ℤ) * ((led_radius : ℤ) * 2 + (padding : ℤ))
    if x + (led_radius : ℤ) ≤ display_width then some x else none

/-- The rendered sink `LEDDisplay` of `led_display.py`: configuration,
current display trace, LED center positions and frame counter. -/
structure LEDDisplay where
  num_leds : ℕ
  led_radius : ℕ
  padding : ℕ
  base_color : ℕ
  display : Display
  led_positions : List ℤ
  frame_count : ℕ
deriving DecidableEq

/-- `LEDDisplay.__init__`: a 320x240 display is initialized and cleared,
the base color is white, and the LED positions are computed once. -/
def LEDDisplay.init (num_leds led_radius padding : ℕ) : LEDDisplay :=
  let disp : Display :=
    { width := 320, height := 240, ops := [DisplayOp.clear (color565 0 0 0)] }
  { num_leds := num_leds
    led_radius := led_radius
    padding := padding
    base_color := color565 255 255 255
    display := disp
    led_positions := calculate_led_positions num_leds led_radius padding disp.width
    frame_count := 0 }

/-- `LEDDisplay.get_num_leds`: the number of retained LED positions. -/
def LEDDisplay.get_num_leds (s : LEDDisplay) : ℕ := s.led_positions.length

/-- `LEDDisplay.set_pwm` from `led_display.py`: for an in-range index,
compute the brightness-adjusted color and redraw the LED's circle; for an
out-of-range index, do nothing. -/
def LEDDisplay.set_pwm (s : LEDDisplay) (led_index : ℤ) (pwm_value : ℚ) :
    LEDDisplay :=
  if 0 ≤ led_index ∧ led_index < (s.led_positions.length : ℤ) then
    let current_color := _adjust_brightness_rgb565 s.base_color pwm_value
    let center_y := s.display.height / 2
    { s with
      display := draw_circle_fast s.display (s.led_positions.getD led_index.toNat 0)
        center_y (s.led_radius : ℤ) current_color }
  else s

/-- The physical sink `LEDPhysical` of `led_physical.py`: the configured
pins, the current duty per channel, the reconciled channel count and the
frame counter. -/
structure LEDPhysical where
  led_pins : List ℕ
  leds : List ℤ
  num_leds : ℕ
  frame_count : ℕ
deriving DecidableEq

/-- `LEDPhysical.__init__`: default pins `[2, 4, 5, 18, 19, 21]` when none
are given, truncated to `num_leds`; every channel starts at duty `0`. -/
def LEDPhysical.init (num_leds : ℕ) (led_pins : Option (List ℕ)) : LEDPhysical :=
  let pins := (led_pins.getD [2, 4, 5, 18, 19, 21]).take num_leds
  { led_pins := pins
    leds := List.replicate pins.length 0
    num_leds := pins.length
    frame_count := 0 }

/-- `LEDPhysical.get_num_leds`: the reconciled channel count. -/
def LEDPhysical.get_num_leds (s : LEDPhysical) : ℕ := s.num_leds

/-- `LEDPhysical.set_pwm` from `led_physical.py`: for an in-range index,
scale the intensity to `int(v * 1023)`, clamp to `[0, 1023]` and set that
duty on the channel; for an out-of-range index, do nothing. -/
def LEDPhysical.set_pwm (s : LEDPhysical) (led_index : ℤ) (pwm_value : ℚ) :
    LEDPhysical :=
  if 0 ≤ led_index ∧ led_index < (s.leds.length : ℤ) then
    let duty_value := pyTrunc (pwm_value * 1023)
    let duty_clamped := max 0 (min 1023 duty_value)
    { s with leds := s.leds.set led_index.toNat duty_clamped }
  else s

/-- The buffer contents as the spec describes them: row-major over the
clipped bounding box (rows outer, columns inner), one 16-bit color per
pixel stored high byte first, the color being the circle color inside the
disc and packed black outside. -/
def circle_buffer_spec (x_min y_min x0 y0 radius : ℤ) (color : ℕ) (w h : ℕ) :
    List ℕ :=
  (List.range h).flatMap fun y => (List.range w).flatMap fun x =>
    let pix := circle_pixel x_min y_min x0 y0 radius color (y, x)
    [pix / 256, pix % 256]

lemma pyTrunc_natCast (n : ℕ) : pyTrunc (n : ℚ) = n := by
  simp [pyTrunc, Nat.cast_nonneg]

lemma ceil_nonpos {q : ℚ} (h : q ≤ 0) : ⌈q⌉ ≤ 0 :=
  Int.ceil_le.mpr (by exact_mod_cast h)

lemma pyTrunc_nonpos {q : ℚ} (h : q ≤ 0) : pyTrunc q ≤ 0 := by
  unfold pyTrunc
  split
  · have : (0 : ℚ) = q := le_antisymm (by assumption) h
    simp [← this]
  · exact ceil_nonpos h

lemma pyTrunc_mono {q₁ q₂ : ℚ} (h : q₁ ≤ q₂) : pyTrunc q₁ ≤ pyTrunc q₂ := by
  unfold pyTrunc
  split
  · rw [if_pos (le_trans (by assumption) h)]
    exact Int.floor_le_floor h
  · split
    · calc ⌈q₁⌉ ≤ 0 := ceil_nonpos (le_of_not_le (by assumption))
        _ ≤ ⌊q₂⌋ := Int.floor_nonneg.mpr (by assumption)
    · exact Int.ceil_le_ceil h

lemma clamp255_toNat_le (x : ℤ) : (min 255 (max 0 x)).toNat ≤ 255 := by
  omega

lemma clamp255_toNat_mono {x y : ℤ} (h : x ≤ y) :
    (min 255 (max 0 x)).toNat ≤ (min 255 (max 0 y)).toNat := by
  omega

lemma color565_le (r g b : ℕ) (hr : r ≤ 255) (hg : g ≤ 255) (hb : b ≤ 255) :
    color565 r g b ≤ 65535 := by
  unfold color565
  have h1 : r / 8 ≤ 31 := by omega
  have h2 : g / 4 ≤ 63 := by omega
  have h3 : b / 8 ≤ 31 := by omega
  nlinarith

lemma color565_mono {r₁ g₁ b₁ r₂ g₂ b₂ : ℕ}
    (hr : r₁ ≤ r₂) (hg : g₁ ≤ g₂) (hb : b₁ ≤ b₂) :
    color565 r₁ g₁ b₁ ≤ color565 r₂ g₂ b₂ := by
  unfold color565
  have h1 : r₁ / 8 ≤ r₂ / 8 := Nat.div_le_div_right hr
  have h2 : g₁ / 4 ≤ g₂ / 4 := Nat.div_le_div_right hg
  have h3 : b₁ / 8 ≤ b₂ / 8 := Nat.div_le_div_right hb
  nlinarith

lemma adjust_mono (c : ℕ) {b₁ b₂ : ℚ} (h : b₁ ≤ b₂) :
    _adjust_brightness_rgb565 c b₁ ≤ _adjust_brightness_rgb565 c b₂ := by
  unfold _adjust_brightness_rgb565
  refine color565_mono ?_ ?_ ?_ <;>
    exact clamp255_toNat_mono
      (pyTrunc_mono (mul_le_mul_of_nonneg_left h (by positivity)))

lemma adjust_le (c : ℕ) (b : ℚ) : _adjust_brightness_rgb565 c b ≤ 65535 := by
  unfold _adjust_brightness_rgb565
  exact color565_le _ _ _ (clamp255_toNat_le _) (clamp255_toNat_le _)
    (clamp255_toNat_le _)

lemma adjust_nonpos (c : ℕ) {br : ℚ} (hb : br ≤ 0) :
    _adjust_brightness_rgb565 c br = 0 := by
  unfold _adjust_brightness_rgb565
  have key : ∀ m : ℕ, (min 255 (max 0 (pyTrunc ((m : ℚ) * br)))).toNat = 0 := by
    intro m
    have h1 : (m : ℚ) * br ≤ 0 := mul_nonpos_of_nonneg_of_nonpos (by positivity) hb
    have h2 := pyTrunc_nonpos h1
    omega
  simp only [key]
  rfl

/-- `C4`: `_adjust_brightness_rgb565(c, 0)` is exactly packed black `0x0000`
for every 16-bit color `c` (every channel scales to zero and repacks to
zero). -/
theorem C4_brightness_zero_is_black (c : ℕ) :
    _adjust_brightness_rgb565 c 0 = 0 :=
  adjust_nonpos c le_rfl

lemma and_0x1F (n : ℕ) : n &&& 0x1F = n % 32 := by
  have h := Nat.and_pow_two_sub_one_eq_mod n 5
  norm_num at h
  exact h

lemma and_0x3F (n : ℕ) : n &&& 0x3F = n % 64 := by
  have h := Nat.and_pow_two_sub_one_eq_mod n 6
  norm_num at h
  exact h

lemma r_channel_roundtrip : ∀ r < 32, r * 255 / 31 / 8 = r := by decide

lemma g_channel_roundtrip : ∀ g < 64, g * 255 / 63 / 4 = g := by decide

lemma r_channel_le : ∀ r < 32, r * 255 / 31 ≤ 255 := by decide

lemma g_channel_le : ∀ g < 64, g * 255 / 63 ≤ 255 := by decide

lemma clamp_of_le {n : ℕ} (h : n ≤ 255) : (min 255 (max 0 (n : ℤ))).toNat = n := by
  omega

lemma adjust_one (c : ℕ) (hc : c < 65536) :
    _adjust_brightness_rgb565 c 1 = c := by
  unfold _adjust_brightness_rgb565
  have h1 : c >>> 11 &&& 0x1F < 32 := by
    rw [and_0x1F]; exact Nat.mod_lt _ (by norm_num)
  have h2 : c >>> 5 &&& 0x3F < 64 := by
    rw [and_0x3F]; exact Nat.mod_lt _ (by norm_num)
  have h3 : c &&& 0x1F < 32 := by
    rw [and_0x1F]; exact Nat.mod_lt _ (by norm_num)
  simp only [mul_one, pyTrunc_natCast]
  rw [clamp_of_le (r_channel_le _ h1), clamp_of_le (g_channel_le _ h2),
    clamp_of_le (r_channel_le _ h3)]
  unfold color565
  rw [r_channel_roundtrip _ h1, g_channel_roundtrip _ h2,
    r_channel_roundtrip _ h3]
  rw [and_0x1F, and_0x3F, and_0x1F, Nat.shiftRight_eq_div_pow,
    Nat.shiftRight_eq_div_pow]
  omega

/-- `C3`: at brightness `1.0` the unpack/repack round trip of
`_adjust_brightness_rgb565` is in fact exactly lossless for every 16-bit
RGB565 color (so in particular within the 5/6/5 quantization error), and
for pure white `0xFFFF` the result is exactly `0xFFFF`. -/
theorem C3_full_brightness_roundtrip (c : ℕ) (hc : c < 65536) :
    _adjust_brightness_rgb565 c 1 = c ∧
    _adjust_brightness_rgb565 0xFFFF 1 = 0xFFFF :=
  ⟨adjust_one c hc, adjust_one 65535 (by norm_num)⟩

theorem C3_full_brightness_roundtrip_witness :
    0xABCD < 65536 ∧
    (_adjust_brightness_rgb565 0xABCD 1 = 0xABCD ∧
      _adjust_brightness_rgb565 0xFFFF 1 = 0xFFFF) :=
  ⟨by norm_num, C3_full_brightness_roundtrip 0xABCD (by norm_num)⟩

/-- `C2` (corrected): the claimed identity
`_adjust_brightness_rgb565 c b = _adjust_brightness_rgb565 c (clamp b 0 1)`
fails for `b > 1` (see the counterexample: channels are clamped to
`[0, 255]` at the 8-bit stage only after scaling, which saturates later than
clamping `b` first would).  What does hold: for `b ≤ 0` the identity is
true (both sides are packed black), the function is monotonic in the
brightness, and the result never exceeds `0xFFFF`, so it never wraps on
overflow. -/
theorem C2_brightness_clamping (c : ℕ) (b b₁ b₂ : ℚ)
    (hb : b ≤ 0) (h12 : b₁ ≤ b₂) :
    _adjust_brightness_rgb565 c b
        = _adjust_brightness_rgb565 c (min 1 (max 0 b)) ∧
    _adjust_brightness_rgb565 c b₁ ≤ _adjust_brightness_rgb565 c b₂ ∧
    _adjust_brightness_rgb565 c b₂ ≤ 65535 := by
  refine ⟨?_, adjust_mono c h12, adjust_le c b₂⟩
  have h0 : min 1 (max 0 b) ≤ (0 : ℚ) := by
    rw [max_eq_left hb]
    norm_num
  rw [adjust_nonpos c hb, adjust_nonpos c h0]

theorem C2_brightness_clamping_witness :
    (-1 : ℚ) ≤ 0 ∧ (1/2 : ℚ) ≤ 1 ∧
    (_adjust_brightness_rgb565 7 (-1)
        = _adjust_brightness_rgb565 7 (min 1 (max 0 (-1))) ∧
      _adjust_brightness_rgb565 7 (1/2) ≤ _adjust_brightness_rgb565 7 1 ∧
      _adjust_brightness_rgb565 7 1 ≤ 65535) :=
  ⟨by norm_num, by norm_num,
    C2_brightness_clamping 7 (-1) (1/2) 1 (by norm_num) (by norm_num)⟩

theorem C2_counterexample :
    _adjust_brightness_rgb565 1 2
      ≠ _adjust_brightness_rgb565 1 (min 1 (max 0 2)) := by
  simp only [_adjust_brightness_rgb565, and_0x1F, and_0x3F,
    Nat.shiftRight_eq_div_pow]
  norm_num [pyTrunc, color565]
  omega

lemma frameTrace_countP_set (n : ℕ) (offset : ℚ) :
    (frameTrace n offset).countP isSetPwm = n := by
  unfold frameTrace
  rw [List.countP_append, List.countP_map]
  simp [isSetPwm, isTick, Function.comp_def]

lemma frameTrace_countP_tick (n : ℕ) (offset : ℚ) :
    (frameTrace n offset).countP isTick = 1 := by
  unfold frameTrace
  rw [List.countP_append, List.countP_map]
  simp [isSetPwm, isTick, Function.comp_def]

lemma frameTrace_countP_cleanup (n : ℕ) (offset : ℚ) :
    (frameTrace n offset).countP isCleanup = 0 := by
  unfold frameTrace
  rw [List.countP_append, List.countP_map]
  simp [isCleanup, Function.comp_def]

lemma runFrames_countP (n : ℕ) (p : Event → Bool) (k : ℕ)
    (hk : ∀ offset : ℚ, (frameTrace n offset).countP p = k) :
    ∀ (N : ℕ) (offset : ℚ), (runFrames n N offset).countP p = N * k := by
  intro N
  induction N with
  | zero => intro offset; simp [runFrames]
  | succ m ih =>
    intro offset
    rw [runFrames, List.countP_append, hk offset, ih (offset + WAVE_SPEED)]
    ring

/-- `C1`: a run of the loop that completes `N` frames over a sink with `n`
channels and is then terminated (interrupt or unexpected error) calls
`set_pwm` exactly `N * n` times, `update_fps_display` exactly `N` times,
and `cleanup` exactly once, as the final call of the trace — in particular
after the last tick, on both termination paths. -/
theorem C1_loop_call_counts (n N : ℕ) (s : Stop) :
    (mainTrace n N s).countP isSetPwm = N * n ∧
    (mainTrace n N s).countP isTick = N ∧
    (mainTrace n N s).countP isCleanup = 1 ∧
    (mainTrace n N s).getLast? = some Event.cleanup := by
  unfold mainTrace
  refine ⟨?_, ?_, ?_, ?_⟩
  · rw [List.countP_append, runFrames_countP n isSetPwm n
      (frameTrace_countP_set n) N 0]
    simp [isSetPwm]
  · rw [List.countP_append, runFrames_countP n isTick 1
      (frameTrace_countP_tick n) N 0]
    simp [isTick]
  · rw [List.countP_append, runFrames_countP n isCleanup 0
      (frameTrace_countP_cleanup n) N 0]
    simp [isCleanup]
  · rw [List.getLast?_append]
    rfl

lemma pyMod_two_bounds (x : ℚ) : 0 ≤ pyMod x 2 ∧ pyMod x 2 < 2 := by
  unfold pyMod
  have h1 := Int.floor_le (x / 2)
  have h2 := Int.lt_floor_add_one (x / 2)
  constructor <;> nlinarith

lemma wave_value_bounds (offset : ℚ) (i n : ℕ) :
    0 ≤ wave_value offset i n ∧ wave_value offset i n ≤ 1 := by
  have e2 : (2.0 : ℚ) = 2 := by norm_num
  have e1 : (1.0 : ℚ) = 1 := by norm_num
  unfold wave_value
  simp only [e2, e1]
  obtain ⟨h0, h2⟩ := pyMod_two_bounds (offset + (i : ℚ) / (n : ℚ))
  split
  · constructor <;> linarith
  · rename_i h
    rw [not_le] at h
    constructor <;> linarith

lemma pwm_value_bounds (offset : ℚ) (i n : ℕ) :
    MIN_PWM ≤ pwm_value offset i n ∧ pwm_value offset i n ≤ MAX_PWM := by
  obtain ⟨h0, h1⟩ := wave_value_bounds offset i n
  unfold pwm_value MIN_PWM MAX_PWM
  constructor <;> nlinarith

lemma runFrames_set_pwm_mem (n : ℕ) :
    ∀ (N : ℕ) (offset : ℚ) (i : ℕ) (v : ℚ),
      Event.set_pwm i v ∈ runFrames n N offset →
      ∃ o : ℚ, v = pwm_value o i n := by
  intro N
  induction N with
  | zero => intro offset i v h; simp [runFrames] at h
  | succ m ih =>
    intro offset i v h
    rw [runFrames, List.mem_append] at h
    rcases h with h | h
    · unfold frameTrace at h
      rw [List.mem_append] at h
      rcases h with h | h
      · rw [List.mem_map] at h
        obtain ⟨j, _, hj⟩ := h
        cases hj
        exact ⟨offset, rfl⟩
      · simp at h
    · exact ih (offset + WAVE_SPEED) i v h

/-- `C10`: every intensity the animation loop passes to `set_pwm` lies in
`[MIN_PWM, MAX_PWM] = [0.05, 1.0]`: the triangular wave value is in
`[0, 1]` and is mapped affinely by
`pwm_value = MIN_PWM + wave_value * (MAX_PWM - MIN_PWM)`; in particular no
channel is ever driven fully dark while the loop runs. -/
theorem C10_loop_intensity_invariant (n N : ℕ) (s : Stop) (i : ℕ) (v : ℚ)
    (hmem : Event.set_pwm i v ∈ mainTrace n N s) :
    MIN_PWM ≤ v ∧ v ≤ MAX_PWM ∧ 0 < v := by
  unfold mainTrace at hmem
  rw [List.mem_append] at hmem
  rcases hmem with hmem | hmem
  · obtain ⟨o, rfl⟩ := runFrames_set_pwm_mem n N 0 i v hmem
    obtain ⟨hlo, hhi⟩ := pwm_value_bounds o i n
    refine ⟨hlo, hhi, lt_of_lt_of_le ?_ hlo⟩
    unfold MIN_PWM
    norm_num
  · simp at hmem

theorem C10_loop_intensity_invariant_witness :
    Event.set_pwm 0 (pwm_value 0 0 1) ∈ mainTrace 1 1 Stop.interrupt ∧
    (MIN_PWM ≤ pwm_value 0 0 1 ∧ pwm_value 0 0 1 ≤ MAX_PWM ∧
      0 < pwm_value 0 0 1) :=
  ⟨by simp [mainTrace, runFrames, frameTrace],
    C10_loop_intensity_invariant 1 1 Stop.interrupt 0 (pwm_value 0 0 1)
      (by simp [mainTrace, runFrames, frameTrace])⟩

/-- `C5`: the triangular wave of the loop body coincides with the spec's
triangular policy — `position = (offset + i/n) mod 2.0`, `value = position`
when `position ≤ 1.0`, else `2.0 - position` — and takes the spec's sample
values: `0.0` at offset `0`, `1.0` (peak) at offset `1.0`, `0.5`
(descending) at offset `1.5`. -/
theorem C5_triangular_wave (offset : ℚ) (i n : ℕ) (hn : 0 < n) :
    wave_value offset i n = triangular_spec offset i n ∧
    wave_value 0 0 1 = 0 ∧
    wave_value 1 0 1 = 1 ∧
    wave_value (3/2) 0 1 = 1/2 := by
  refine ⟨rfl, ?_, ?_, ?_⟩ <;> norm_num [wave_value, pyMod]

lemma and_0xFF (n : ℕ) : n &&& 0xFF = n % 256 := by
  have h := Nat.and_pow_two_sub_one_eq_mod n 8
  norm_num at h
  exact h

lemma circle_write_eq (c : ℕ) : ∀ (i : ℕ) (buf : List ℕ), i + 2 ≤ buf.length →
    circle_write buf i c
      = buf.take i ++ [c >>> 8, c &&& 0xFF] ++ buf.drop (i + 2) := by
  intro i
  induction i with
  | zero =>
    intro buf h
    match buf, h with
    | a :: b :: t, _ => simp [circle_write]
  | succ j ih =>
    intro buf h
    match buf, h with
    | a :: t, h =>
      have ht : j + 2 ≤ t.length := by
        simp only [List.length_cons] at h
        omega
      have step : circle_write (a :: t) (j + 1) c = a :: circle_write t j c := rfl
      rw [step, ih t ht]
      rfl

lemma circle_fold (f : ℕ × ℕ → ℕ) :
    ∀ (l : List (ℕ × ℕ)) (i : ℕ) (buf : List ℕ), i + 2 * l.length ≤ buf.length →
      l.foldl (fun st yx => (st.1 + 2, circle_write st.2 st.1 (f yx))) (i, buf)
        = (i + 2 * l.length,
            buf.take i ++ (l.flatMap fun yx => [f yx >>> 8, f yx &&& 0xFF])
              ++ buf.drop (i + 2 * l.length)) := by
  intro l
  induction l with
  | nil =>
    intro i buf h
    simp
  | cons yx t ih =>
    intro i buf h
    rw [List.foldl_cons]
    have hlen : i + 2 ≤ buf.length := by
      simp only [List.length_cons] at h
      omega
    have hW : (circle_write buf i (f yx)).length = buf.length := by
      unfold circle_write
      simp [List.length_set]
    have h2 : (i + 2) + 2 * t.length ≤ (circle_write buf i (f yx)).length := by
      rw [hW]
      simp only [List.length_cons] at h
      omega
    rw [ih (i + 2) _ h2]
    refine Prod.ext ?_ ?_
    · simp only [List.length_cons]
      omega
    · show (circle_write buf i (f yx)).take (i + 2)
          ++ (t.flatMap fun p => [f p >>> 8, f p &&& 0xFF])
          ++ (circle_write buf i (f yx)).drop (i + 2 + 2 * t.length)
        = buf.take i ++ ((yx :: t).flatMap fun p => [f p >>> 8, f p &&& 0xFF])
          ++ buf.drop (i + 2 * (yx :: t).length)
      rw [circle_write_eq (f yx) i buf hlen]
      have htl : (buf.take i ++ [f yx >>> 8, f yx &&& 0xFF]).length = i + 2 := by
        simp [List.length_take]
        omega
      have e1 : ((buf.take i ++ [f yx >>> 8, f yx &&& 0xFF]) ++ buf.drop (i + 2)).take (i + 2)
          = buf.take i ++ [f yx >>> 8, f yx &&& 0xFF] :=
        List.take_left' htl
      have e2 : ((buf.take i ++ [f yx >>> 8, f yx &&& 0xFF]) ++ buf.drop (i + 2)).drop (i + 2 + 2 * t.length)
          = buf.drop (i + 2 + 2 * t.length) := by
        have d1 : i + 2 + 2 * t.length
            = (buf.take i ++ [f yx >>> 8, f yx &&& 0xFF]).length + 2 * t.length := by
          rw [htl]
        rw [d1, List.drop_append, List.drop_drop, htl]
      rw [List.append_assoc, e1, e2]
      have d2 : i + 2 * (yx :: t).length = i + 2 + 2 * t.length := by
        simp only [List.length_cons]
        omega
      rw [d2]
      simp [List.append_assoc]

lemma flatMap_pair_length {α : Type} (f g : α → ℕ) :
    ∀ l : List α, (l.flatMap fun a => [f a, g a]).length = 2 * l.length := by
  intro l
  induction l with
  | nil => simp
  | cons a t ih =>
    simp only [List.flatMap_cons, List.length_append, ih, List.length_cons]
    simp
    omega

lemma flatMap_const_length {α β : Type} (k : ℕ) (g : α → List β)
    (hg : ∀ a, (g a).length = k) :
    ∀ l : List α, (l.flatMap g).length = l.length * k := by
  intro l
  induction l with
  | nil => simp
  | cons a t ih =>
    simp only [List.flatMap_cons, List.length_append, ih, List.length_cons, hg]
    ring

lemma circle_fill_eq (x_min y_min x0 y0 radius : ℤ) (color : ℕ) (w h : ℕ) :
    circle_fill x_min y_min x0 y0 radius color w h
      = (w * h * 2, circle_buffer_spec x_min y_min x0 y0 radius color w h) := by
  unfold circle_fill
  have hpairs : ((List.range h).flatMap fun y =>
      (List.range w).map fun x => (y, x)).length = h * w := by
    rw [flatMap_const_length w _ (fun y => by simp)]
    simp
  have hle : 0 + 2 * ((List.range h).flatMap fun y =>
      (List.range w).map fun x => (y, x)).length
      ≤ (List.replicate (w * h * 2) (0 : ℕ)).length := by
    rw [hpairs, List.length_replicate]
    have : w * h * 2 = 0 + 2 * (h * w) := by ring
    rw [this]
  rw [circle_fold (circle_pixel x_min y_min x0 y0 radius color) _ 0 _ hle]
  rw [Prod.mk.injEq]
  constructor
  · rw [hpairs]
    ring
  · rw [List.take_zero, List.nil_append, List.drop_eq_nil_of_le, List.append_nil]
    · rw [List.flatMap_assoc]
      unfold circle_buffer_spec
      simp only [List.flatMap_map, Nat.shiftRight_eq_div_pow, and_0xFF]
    · rw [hpairs, List.length_replicate]
      have e : w * h * 2 = 0 + 2 * (h * w) := by ring
      rw [e]

/-- `C9`: `_draw_circle_fast` submits exactly one block transfer per call,
covering exactly the square bounding box clipped to the display; the
submitted buffer is the row-major list of 16-bit values stored high byte
first (high byte `pix / 256`, then `pix % 256`), where each pixel is the
circle color iff `dx² + dy² ≤ radius²` and packed black otherwise; the
final write index of the filling loop equals the allocated size
`2 * width * height`, the buffer's length, so every byte written lands in
the allocated buffer. -/
theorem C9_draw_circle_single_block (disp : Display) (x0 y0 radius : ℤ)
    (color : ℕ) (x_min y_min : ℤ) (w h : ℕ) :
    circle_fill x_min y_min x0 y0 radius color w h
      = (w * h * 2, circle_buffer_spec x_min y_min x0 y0 radius color w h) ∧
    (circle_buffer_spec x_min y_min x0 y0 radius color w h).length
      = w * h * 2 ∧
    (∀ yx : ℕ × ℕ, circle_pixel x_min y_min x0 y0 radius color yx
      = if (x_min + (yx.2 : ℤ) - x0) ^ 2 + (y_min + (yx.1 : ℤ) - y0) ^ 2
            ≤ radius ^ 2
        then color else color565 0 0 0) ∧
    (draw_circle_fast disp x0 y0 radius color).ops
      = disp.ops ++ [DisplayOp.block (max 0 (x0 - radius)) (max 0 (y0 - radius))
          (min (disp.width - 1) (x0 + radius)) (min (disp.height - 1) (y0 + radius))
          (circle_fill (max 0 (x0 - radius)) (max 0 (y0 - radius)) x0 y0 radius
            color
            (min (disp.width - 1) (x0 + radius) - max 0 (x0 - radius) + 1).toNat
            (min (disp.height - 1) (y0 + radius) - max 0 (y0 - radius) + 1).toNat).2] := by
  refine ⟨circle_fill_eq x_min y_min x0 y0 radius color w h, ?_, ?_, rfl⟩
  · have := congrArg Prod.snd (circle_fill_eq x_min y_min x0 y0 radius color w h)
    have hlen2 : (circle_buffer_spec x_min y_min x0 y0 radius color w h).length
        = h * (2 * w) := by
      unfold circle_buffer_spec
      rw [flatMap_const_length (2 * w) _ (fun y => by
        simp only
        rw [flatMap_pair_length]
        simp)]
      simp
    rw [hlen2]
    ring
  · intro yx
    unfold circle_pixel
    ring_nf

/-- `C6`: with `numLeds=6, radius=8, padding=5` on the 320-wide display the
retained X centers are `[107, 128, 149, 170, 191, 212]` — evenly spaced
(step `21`), strictly increasing, each with `x + radius ≤ 320`; for every
configuration every retained position satisfies `x + radius ≤ width`
(positions past the right edge are silently dropped), `get_num_leds` is the
number of retained positions, and a 100-wide display retains only 5 of the
6 requested channels. -/
theorem C6_led_positions (n r p : ℕ) (w x : ℤ)
    (hx : x ∈ calculate_led_positions n r p w) :
    x + (r : ℤ) ≤ w ∧
    calculate_led_positions 6 8 5 320 = [107, 128, 149, 170, 191, 212] ∧
    (calculate_led_positions 6 8 5 320).Chain' (· < ·) ∧
    (calculate_led_positions 6 8 5 320).Chain' (fun a b => b = a + 21) ∧
    (∀ x' ∈ calculate_led_positions 6 8 5 320, x' + 8 ≤ 320) ∧
    (LEDDisplay.init n r p).get_num_leds
      = (calculate_led_positions n r p 320).length ∧
    (calculate_led_positions 6 8 5 100).length = 5 := by
  have hlist : calculate_led_positions 6 8 5 320 = [107, 128, 149, 170, 191, 212] := by
    decide
  refine ⟨?_, hlist, by rw [hlist]; simp [List.chain'_cons],
    by rw [hlist]; simp [List.chain'_cons], by decide, rfl, by decide⟩
  simp only [calculate_led_positions, List.mem_filterMap, List.mem_range] at hx
  obtain ⟨i, _, hi⟩ := hx
  split at hi
  · cases hi
    assumption
  · cases hi

theorem C6_led_positions_witness :
    (107 : ℤ) ∈ calculate_led_positions 6 8 5 320 ∧
    ((107 : ℤ) + (8 : ℕ) ≤ 320 ∧
      calculate_led_positions 6 8 5 320 = [107, 128, 149, 170, 191, 212] ∧
      (calculate_led_positions 6 8 5 320).Chain' (· < ·) ∧
      (calculate_led_positions 6 8 5 320).Chain' (fun a b => b = a + 21) ∧
      (∀ x' ∈ calculate_led_positions 6 8 5 320, x' + 8 ≤ 320) ∧
      (LEDDisplay.init 6 8 5).get_num_leds
        = (calculate_led_positions 6 8 5 320).length ∧
      (calculate_led_positions 6 8 5 100).length = 5) :=
  ⟨by decide, C6_led_positions 6 8 5 320 107 (by decide)⟩

/-- `C7`: for an in-range channel, the physical sink sets the duty
`clamp(int(v * 1023), 0, 1023)` on that channel; the duty is always in
`[0, 1023]` whatever `v` is, and the mapping sends `0.0` to `0`, `1.0` to
`1023` and `0.5` to exactly `511` (truncating rounding). -/
theorem C7_physical_duty (s : LEDPhysical) (i : ℤ) (v : ℚ)
    (h0 : 0 ≤ i) (hlt : i < (s.leds.length : ℤ)) :
    (s.set_pwm i v).leds[i.toNat]?
        = some (max 0 (min 1023 (pyTrunc (v * 1023)))) ∧
    (∀ u : ℚ, 0 ≤ max 0 (min 1023 (pyTrunc (u * 1023))) ∧
      max 0 (min 1023 (pyTrunc (u * 1023))) ≤ 1023) ∧
    max 0 (min 1023 (pyTrunc ((0 : ℚ) * 1023))) = 0 ∧
    max 0 (min 1023 (pyTrunc ((1 : ℚ) * 1023))) = 1023 ∧
    max 0 (min 1023 (pyTrunc ((1/2 : ℚ) * 1023))) = 511 := by
  refine ⟨?_, fun u => ⟨le_max_left _ _, by omega⟩, ?_, ?_, ?_⟩
  · unfold LEDPhysical.set_pwm
    rw [if_pos ⟨h0, hlt⟩]
    exact List.getElem?_set_self (by omega)
  · norm_num [pyTrunc]
  · norm_num [pyTrunc]
  · norm_num [pyTrunc]

theorem C7_physical_duty_witness :
    (0 : ℤ) ≤ 0 ∧ (0 : ℤ) < ((LEDPhysical.init 6 none).leds.length : ℤ) ∧
    (((LEDPhysical.init 6 none).set_pwm 0 (1/2)).leds[(0 : ℤ).toNat]?
        = some (max 0 (min 1023 (pyTrunc ((1/2 : ℚ) * 1023)))) ∧
      (∀ u : ℚ, 0 ≤ max 0 (min 1023 (pyTrunc (u * 1023))) ∧
        max 0 (min 1023 (pyTrunc (u * 1023))) ≤ 1023) ∧
      max 0 (min 1023 (pyTrunc ((0 : ℚ) * 1023))) = 0 ∧
      max 0 (min 1023 (pyTrunc ((1 : ℚ) * 1023))) = 1023 ∧
      max 0 (min 1023 (pyTrunc ((1/2 : ℚ) * 1023))) = 511) :=
  ⟨le_refl 0, by decide,
    C7_physical_duty (LEDPhysical.init 6 none) 0 (1/2) (le_refl 0) (by decide)⟩

/-- `C8`: for both sinks, `set_pwm` with an out-of-range index (negative or
at least the channel count) is a silent no-op: the sink state — display
trace, duties, counters — is exactly unchanged, so no draw and no duty
write happens.  For the physical sink the channel count equals the length
of the duty list (an invariant of construction, taken as a hypothesis). -/
theorem C8_out_of_range_noop (sd : LEDDisplay) (sp : LEDPhysical) (i : ℤ)
    (v : ℚ)
    (hd : i < 0 ∨ (sd.get_num_leds : ℤ) ≤ i)
    (hp : i < 0 ∨ (sp.get_num_leds : ℤ) ≤ i)
    (hinv : sp.leds.length = sp.num_leds) :
    sd.set_pwm i v = sd ∧ sp.set_pwm i v = sp := by
  constructor
  · unfold LEDDisplay.set_pwm
    rw [if_neg]
    unfold LEDDisplay.get_num_leds at hd
    omega
  · unfold LEDPhysical.set_pwm
    rw [if_neg]
    unfold LEDPhysical.get_num_leds at hp
    omega

theorem C8_out_of_range_noop_witness :
    ((-1 : ℤ) < 0 ∨ ((LEDDisplay.init 6 8 5).get_num_leds : ℤ) ≤ -1) ∧
    ((-1 : ℤ) < 0 ∨ ((LEDPhysical.init 6 none).get_num_leds : ℤ) ≤ -1) ∧
    (LEDPhysical.init 6 none).leds.length = (LEDPhysical.init 6 none).num_leds ∧
    ((LEDDisplay.init 6 8 5).set_pwm (-1) 0 = LEDDisplay.init 6 8 5 ∧
      (LEDPhysical.init 6 none).set_pwm (-1) 0 = LEDPhysical.init 6 none) :=
  ⟨Or.inl (by norm_num), Or.inl (by norm_num), by decide,
    C8_out_of_range_noop (LEDDisplay.init 6 8 5) (LEDPhysical.init 6 none)
      (-1) 0 (Or.inl (by norm_num)) (Or.inl (by norm_num)) (by decide)⟩

theorem C5_triangular_wave_witness :
    0 < 1 ∧
    (wave_value 0 0 1 = triangular_spec 0 0 1 ∧
      wave_value 0 0 1 = 0 ∧
      wave_value 1 0 1 = 1 ∧
      wave_value (3/2) 0 1 = 1/2) :=
  ⟨Nat.one_pos, C5_triangular_wave 0 0 1 Nat.one_pos⟩
